import Mathlib

/-!
Verification of the automation governance analyzer
(`automation_analysis_app.py`) against its natural-language specification.

The analytical core of the program is embedded shallowly:
* `Record` models one row of the uploaded automation log
  (timestamps are modelled as integer minutes since an arbitrary epoch,
  so one day is 1440 ticks; a missing/unparseable value is `none`);
* the derived columns (`LastRunAgeDays`, `IsActive`, `HasNeverRun`,
  `AutomationAgeGroup`, `ErrorRate`, `SkipRate`, `EfficiencyScore`,
  `AnnualizedRunCount`) become functions of a record and a reference
  timestamp `now`;
* `suggestAction` mirrors the `suggest_action` rule cascade, including the
  Python truthiness of `row['ErrorRate'] and ...` /
  `row['EfficiencyScore'] and ...` (a value of `0.0` is falsy);
* the business-unit aggregation, the `difflib.SequenceMatcher` ratio and
  the name-similarity clustering loop are embedded further below.

Rates are modelled in `ℚ`.  The source compares IEEE doubles; for the
quantities appearing here (`2*M/(len a + len b)` with small integer
numerator and denominator, and the literal `0.85`) the rational and the
double comparisons agree, so the `ℚ` model is faithful.
-/

/-- One row of the uploaded CSV, with the fields the analytical core reads.
Counts are the non-negative integers of the data model; timestamps are
`Option Int` (minutes), `none` standing for `NaT`. -/
structure Record where
  automationName : Option String
  businessUnitName : Option String
  createdDate : Option Int
  lastRunTime : Option Int
  scheduledFrequency : Option String
  run30dCount : Nat
  error30dCount : Nat
  skip30dCount : Nat
  completion30dCount : Nat
  successRate30d : Option ℚ

/-- Minutes per day: the timestamp granularity of the embedding. -/
def minutesPerDay : Int := 1440

/-- `df['LastRunAgeDays'] = (now - df['LastRunTime']).dt.days`: floor of the
timedelta in whole days, `NaN` (here `none`) when `LastRunTime` is `NaT`. -/
def lastRunAgeDays (now : Int) (r : Record) : Option Int :=
  r.lastRunTime.map (fun t => Int.fdiv (now - t) minutesPerDay)

/-- `df['IsActive'] = df['LastRunAgeDays'] <= 30`; in pandas `NaN <= 30`
evaluates to `False`. -/
def isActive (age : Option Int) : Bool :=
  match age with
  | none => false
  | some a => a ≤ 30

/-- `df['HasNeverRun'] = df['LastRunTime'].isna()`. -/
def hasNeverRun (r : Record) : Bool :=
  r.lastRunTime.isNone

/-- `pd.cut(df['LastRunAgeDays'], bins=[-1, 30, 90, 180, 365, inf],
labels=[...])`: right-closed intervals, values `≤ -1` (and `NaN`) fall in
no bin and yield `NaN`. -/
def automationAgeGroup (age : Option Int) : Option String :=
  match age with
  | none => none
  | some a =>
    if a ≤ -1 then none
    else if a ≤ 30 then some "<1 mo"
    else if a ≤ 90 then some "1–3 mo"
    else if a ≤ 180 then some "3–6 mo"
    else if a ≤ 365 then some "6–12 mo"
    else some ">1 yr"

/-- `df['ErrorRate'] = df['30DayErrorCount'] / df['30DayRunCount'].replace(0, pd.NA)`:
a zero denominator is replaced by `NA` first, so the quotient is `NA`
(`none`) rather than a division-by-zero artifact.  The exact quotient is
written `mkRat`, which agrees with `(· / ·)` on `ℚ` whenever the
denominator is nonzero (as the guard ensures). -/
def errorRate (r : Record) : Option ℚ :=
  if r.run30dCount = 0 then none
  else some (mkRat r.error30dCount r.run30dCount)

/-- `df['SkipRate'] = df['30DaySkipCount'] / df['30DayRunCount'].replace(0, pd.NA)`. -/
def skipRate (r : Record) : Option ℚ :=
  if r.run30dCount = 0 then none
  else some (mkRat r.skip30dCount r.run30dCount)

/-- `df['EfficiencyScore'] = df['30DayCompletionCount'] / df['30DayRunCount'].replace(0, pd.NA)`. -/
def efficiencyScore (r : Record) : Option ℚ :=
  if r.run30dCount = 0 then none
  else some (mkRat r.completion30dCount r.run30dCount)

/-- `df['AnnualizedRunCount'] = df['30DayRunCount'] * 12`. -/
def annualizedRunCount (r : Record) : Nat :=
  r.run30dCount * 12

/-- Whether a character-list starts with the given pattern. -/
def leadsWith : List Char → List Char → Bool
  | [], _ => true
  | _ :: _, [] => false
  | c :: cs, d :: ds => c == d && leadsWith cs ds

/-- Python substring containment `needle in hay` on character lists. -/
def containsSeq (needle : List Char) : List Char → Bool
  | [] => needle.isEmpty
  | c :: cs => leadsWith needle (c :: cs) || containsSeq needle cs

/-- `'every hour' in str(row['ScheduledFrequency']).lower()`: `str(nan)` is
`"nan"`, which never contains the pattern, so a missing frequency fails the
test.  ASCII lowering matches Python's `.lower()` on the data in scope. -/
def mentionsEveryHour (freq : Option String) : Bool :=
  match freq with
  | none => false
  | some s => containsSeq "every hour".data (s.data.map Char.toLower)

/-- Python truthiness of `row['ErrorRate'] and row['ErrorRate'] > 0.5`: a
zero rate is falsy and short-circuits.  The `none` case cannot be reached in
the cascade (a zero run count is caught by the `"Inactive"` rule first, and
only then is the rate `NA`). -/
def errorProneCond (r : Record) : Bool :=
  match errorRate r with
  | none => false
  | some q => !(q == 0) && decide (mkRat 1 2 < q)

/-- Python truthiness of
`row['EfficiencyScore'] and row['EfficiencyScore'] < 0.5 and row['30DayRunCount'] > 10`:
an efficiency score of exactly `0.0` is falsy, so the conjunction fails. -/
def inefficientCond (r : Record) : Bool :=
  match efficiencyScore r with
  | none => false
  | some q => !(q == 0) && decide (q < mkRat 1 2) && decide (10 < r.run30dCount)

/-- `row['CreatedDate'] < now - pd.Timedelta(days=90)`; `NaT` compares
`False`. -/
def createdLongAgo (now : Int) (r : Record) : Bool :=
  match r.createdDate with
  | none => false
  | some c => c < now - 90 * minutesPerDay

/-- `row['LastRunAgeDays'] > 180`; `NaN` compares `False`. -/
def staleCond (now : Int) (r : Record) : Bool :=
  match lastRunAgeDays now r with
  | none => false
  | some a => 180 < a

/-- The `suggest_action` rule cascade, translated branch by branch from the
source. -/
def suggestAction (now : Int) (r : Record) : String :=
  if hasNeverRun r && createdLongAgo now r then "Created But Never Run"
  else if staleCond now r then "Stale – Consider Archiving"
  else if r.lastRunTime.isNone then "No Run History"
  else if r.run30dCount == 0 then "Inactive"
  else if errorProneCond r then "Error-Prone"
  else if isActive (lastRunAgeDays now r) && mentionsEveryHour r.scheduledFrequency then
    "Review High Frequency"
  else if inefficientCond r then "Inefficient"
  else if decide (50000 < annualizedRunCount r) then "Excessive Annual Volume"
  else "Keep"

/-! ## The specification's rule cascade (for the refinement claims)

`specActionCascade` transcribes §4.2 of the specification word for word;
`amendedActionCascade` is the same cascade with the one change the code
forces: rule 7 additionally requires the efficiency score to be nonzero. -/

/-- Spec rule 5 verbatim: `errorRate` is defined and `> 0.5`. -/
def specErrorProne (r : Record) : Bool :=
  match errorRate r with
  | none => false
  | some q => decide (mkRat 1 2 < q)

/-- Spec rule 7 verbatim: `efficiencyScore` is defined and `< 0.5`, and
`run30dCount > 10`. -/
def specInefficient (r : Record) : Bool :=
  match efficiencyScore r with
  | none => false
  | some q => decide (q < mkRat 1 2) && decide (10 < r.run30dCount)

/-- Spec rule 7 as amended: additionally requires a nonzero efficiency
score (the code's truthiness test rejects an exact zero). -/
def amendedInefficient (r : Record) : Bool :=
  match efficiencyScore r with
  | none => false
  | some q => !(q == 0) && decide (q < mkRat 1 2) && decide (10 < r.run30dCount)

/-- The nine-rule ordered cascade exactly as §4.2 states it. -/
def specActionCascade (now : Int) (r : Record) : String :=
  if hasNeverRun r && createdLongAgo now r then "Created But Never Run"
  else if staleCond now r then "Stale – Consider Archiving"
  else if r.lastRunTime.isNone then "No Run History"
  else if r.run30dCount == 0 then "Inactive"
  else if specErrorProne r then "Error-Prone"
  else if isActive (lastRunAgeDays now r) && mentionsEveryHour r.scheduledFrequency then
    "Review High Frequency"
  else if specInefficient r then "Inefficient"
  else if decide (50000 < annualizedRunCount r) then "Excessive Annual Volume"
  else "Keep"

/-- §4.2's cascade with rule 7 amended to demand a nonzero efficiency
score. -/
def amendedActionCascade (now : Int) (r : Record) : String :=
  if hasNeverRun r && createdLongAgo now r then "Created But Never Run"
  else if staleCond now r then "Stale – Consider Archiving"
  else if r.lastRunTime.isNone then "No Run History"
  else if r.run30dCount == 0 then "Inactive"
  else if specErrorProne r then "Error-Prone"
  else if isActive (lastRunAgeDays now r) && mentionsEveryHour r.scheduledFrequency then
    "Review High Frequency"
  else if amendedInefficient r then "Inefficient"
  else if decide (50000 < annualizedRunCount r) then "Excessive Annual Volume"
  else "Keep"

/-! ## Business-unit aggregation

`df.groupby('BusinessUnitName')` uses pandas' default `dropna=True`, so
rows whose `BusinessUnitName` is `NaN` belong to no group, and the
`('AutomationName', 'count')` aggregation counts the group's non-null
`AutomationName` entries. -/

/-- The group keys: the distinct, present business-unit names. -/
def buKeys (rs : List Record) : List String :=
  (rs.filterMap (·.businessUnitName)).dedup

/-- `TotalAutomations` for one group: rows of that business unit with a
non-null automation name. -/
def totalAutomationsOf (rs : List Record) (b : String) : Nat :=
  rs.countP (fun r => r.businessUnitName == some b && r.automationName.isSome)

/-- The sum of `TotalAutomations` over every emitted group. -/
def totalAutomationsSum (rs : List Record) : Nat :=
  ((buKeys rs).map (totalAutomationsOf rs)).sum

/-! ## Classifier theorems -/

/-- The code's error-prone branch coincides with spec rule 5: a rate above
one half is automatically nonzero, so the Python truthiness guard is
invisible there. -/
theorem errorProneCond_eq_spec (r : Record) : errorProneCond r = specErrorProne r := by
  cases herr : errorRate r with
  | none => simp [errorProneCond, specErrorProne, herr]
  | some q =>
    simp only [errorProneCond, specErrorProne, herr]
    by_cases h : mkRat 1 2 < q
    · have hq : (q == 0) = false := by
        apply beq_eq_false_iff_ne.mpr
        intro h0
        rw [h0] at h
        norm_num [Rat.mkRat_eq_div] at h
      rw [decide_eq_true h, hq]
      rfl
    · rw [decide_eq_false h]
      exact Bool.and_false _

/-- C1 (amended): the classifier is the §4.2 first-match cascade with rule 7
amended to require a nonzero efficiency score. -/
theorem suggestAction_eq_amendedCascade (now : Int) (r : Record) :
    suggestAction now r = amendedActionCascade now r := by
  unfold suggestAction amendedActionCascade
  rw [errorProneCond_eq_spec]
  rfl

/-- C1 counterexample: a record on which the classifier disagrees with the
cascade exactly as §4.2 states it (efficiency score exactly zero). -/
def zeroEffRecord : Record :=
  ⟨some "job", none, some 0, some (100000 - 5 * 1440), some "daily", 20, 0, 0, 0, none⟩

theorem c1_counterexample :
    suggestAction 100000 zeroEffRecord = "Keep"
      ∧ specActionCascade 100000 zeroEffRecord = "Inefficient" := by
  constructor
  · decide
  · decide

/-- C4 (amended): the classifier answers `"Inefficient"` exactly when rules
1–6 fail and the code's rule-7 condition holds — efficiency score defined,
nonzero, below one half, with more than ten runs in 30 days. -/
theorem inefficient_label_iff (now : Int) (r : Record) :
    suggestAction now r = "Inefficient" ↔
      ((hasNeverRun r && createdLongAgo now r) = false
        ∧ staleCond now r = false
        ∧ r.lastRunTime.isNone = false
        ∧ (r.run30dCount == 0) = false
        ∧ errorProneCond r = false
        ∧ (isActive (lastRunAgeDays now r) && mentionsEveryHour r.scheduledFrequency) = false
        ∧ inefficientCond r = true) := by
  unfold suggestAction
  by_cases h1 : (hasNeverRun r && createdLongAgo now r) = true
  · simp [h1]
  · simp only [Bool.not_eq_true] at h1
    by_cases h2 : staleCond now r = true
    · simp [h1, h2]
    · simp only [Bool.not_eq_true] at h2
      by_cases h3 : r.lastRunTime.isNone = true
      · simp [h1, h2, h3]
      · simp only [Bool.not_eq_true] at h3
        by_cases h4 : (r.run30dCount == 0) = true
        · simp [h1, h2, h3, h4]
        · simp only [Bool.not_eq_true] at h4
          by_cases h5 : errorProneCond r = true
          · simp [h1, h2, h3, h4, h5]
          · simp only [Bool.not_eq_true] at h5
            by_cases h6 :
                (isActive (lastRunAgeDays now r) && mentionsEveryHour r.scheduledFrequency) = true
            · simp [h1, h2, h3, h4, h5, h6]
            · simp only [Bool.not_eq_true] at h6
              by_cases h7 : inefficientCond r = true
              · simp [h1, h2, h3, h4, h5, h6, h7]
              · simp only [Bool.not_eq_true] at h7
                by_cases h8 : decide (50000 < annualizedRunCount r) = true
                · simp [h1, h2, h3, h4, h5, h6, h7, h8]
                · simp only [Bool.not_eq_true] at h8
                  simp [h1, h2, h3, h4, h5, h6, h7, h8]

/-- C4 counterexample: rules 1–6 fail, the efficiency score is a defined
zero, the run count exceeds ten — §4.2 rule 7 demands `"Inefficient"`, yet
the code skips the rule (zero is falsy) and answers `"Keep"`. -/
def zeroEffBusyRecord : Record :=
  ⟨some "batch job", some "BU1", some 0, some (200000 - 3 * 1440), some "weekly",
    40, 2, 0, 0, none⟩

theorem c4_counterexample :
    efficiencyScore zeroEffBusyRecord = some 0
      ∧ 10 < zeroEffBusyRecord.run30dCount
      ∧ specInefficient zeroEffBusyRecord = true
      ∧ suggestAction 200000 zeroEffBusyRecord = "Keep" := by
  refine ⟨by decide, by decide, by decide, by decide⟩

/-- C6: the cascade is total — every record, however degenerate its
optional fields, receives one of the nine labels. -/
theorem suggestAction_total (now : Int) (r : Record) :
    suggestAction now r ∈
      ["Created But Never Run", "Stale – Consider Archiving", "No Run History",
       "Inactive", "Error-Prone", "Review High Frequency", "Inefficient",
       "Excessive Annual Volume", "Keep"] := by
  unfold suggestAction
  repeat' split
  all_goals simp

/-- C10: a record that never ran has an undefined run age, hence is not
active, and can never be labelled `"Review High Frequency"` — the cascade
resolves it at rule 1 or rule 3. -/
theorem neverRun_not_highFrequency (now : Int) (r : Record)
    (h : r.lastRunTime = none) :
    isActive (lastRunAgeDays now r) = false
      ∧ suggestAction now r ≠ "Review High Frequency" := by
  have hage : lastRunAgeDays now r = none := by
    simp [lastRunAgeDays, h]
  refine ⟨by simp [isActive, hage], ?_⟩
  unfold suggestAction
  by_cases h1 : (hasNeverRun r && createdLongAgo now r) = true
  · simp [h1]
  · have h2 : staleCond now r = false := by
      simp [staleCond, hage]
    have h3 : r.lastRunTime.isNone = true := by
      simp [h]
    simp only [Bool.not_eq_true] at h1
    simp [h1, h2, h3]

theorem neverRun_not_highFrequency_witness :
    isActive (lastRunAgeDays 100000 (⟨some "j", none, some 0, none, some "every hour", 3, 0, 0, 3, none⟩ : Record)) = false
      ∧ suggestAction 100000 (⟨some "j", none, some 0, none, some "every hour", 3, 0, 0, 3, none⟩ : Record) ≠ "Review High Frequency" :=
  neverRun_not_highFrequency 100000 _ rfl

/-! ## Metric-derivation theorems -/

/-- C5 (amended): the age binning uses the claimed cut points 30, 90, 180,
365 for every non-negative defined age, and an undefined age yields an
undefined group; but the lowest bin is `(-1, 30]`, so a defined *negative*
age (a last-run timestamp in the future) falls in no bin. -/
theorem ageGroup_binning (now : Int) (r : Record) :
    (lastRunAgeDays now r = none → automationAgeGroup (lastRunAgeDays now r) = none)
    ∧ ∀ a, lastRunAgeDays now r = some a →
        ((0 ≤ a ∧ a ≤ 30 → automationAgeGroup (lastRunAgeDays now r) = some "<1 mo")
          ∧ (30 < a ∧ a ≤ 90 → automationAgeGroup (lastRunAgeDays now r) = some "1–3 mo")
          ∧ (90 < a ∧ a ≤ 180 → automationAgeGroup (lastRunAgeDays now r) = some "3–6 mo")
          ∧ (180 < a ∧ a ≤ 365 → automationAgeGroup (lastRunAgeDays now r) = some "6–12 mo")
          ∧ (365 < a → automationAgeGroup (lastRunAgeDays now r) = some ">1 yr")
          ∧ (a < 0 → automationAgeGroup (lastRunAgeDays now r) = none)) := by
  constructor
  · intro h
    rw [h]
    rfl
  · intro a ha
    rw [ha]
    simp only [automationAgeGroup]
    refine ⟨?_, ?_, ?_, ?_, ?_, ?_⟩ <;> intro hr
    all_goals split_ifs <;> first | rfl | omega

theorem ageGroup_binning_witness :
    automationAgeGroup (lastRunAgeDays 100000
        (⟨some "j", none, some 0, some (100000 - 31 * 1440), some "x", 3, 0, 0, 3, none⟩ : Record))
      = some "1–3 mo" :=
  (((ageGroup_binning 100000 _).2 31 (by decide)).2.1) (by decide)

/-- C5 counterexample: a last run one minute in the future gives the defined
age `-1`; the claim's lowest interval (everything `≤ 30`) demands the bin
`"<1 mo"`, but `pd.cut`'s bins start after `-1`, so the group is undefined. -/
def futureRunRecord : Record :=
  ⟨some "j", none, some 0, some (100001 : Int), some "x", 3, 0, 0, 3, none⟩

theorem c5_counterexample :
    lastRunAgeDays 100000 futureRunRecord = some (-1)
      ∧ (-1 : Int) ≤ 30
      ∧ automationAgeGroup (lastRunAgeDays 100000 futureRunRecord) = none := by
  refine ⟨by decide, by decide, by decide⟩

/-- C2 (amended): each 30-day rate is undefined exactly when the run count
is zero; a defined rate equals the exact quotient of its count by the run
count, is never negative, and is at most 1 whenever its numerator count does
not exceed the run count.  (The raw data model does not force
`error30dCount ≤ run30dCount`, so without that hypothesis a defined rate
can exceed 1.) -/
theorem rate_fields_bounds (r : Record) :
    (r.run30dCount = 0 →
      errorRate r = none ∧ skipRate r = none ∧ efficiencyScore r = none)
    ∧ (r.run30dCount ≠ 0 →
        errorRate r = some ((r.error30dCount : ℚ) / (r.run30dCount : ℚ))
        ∧ skipRate r = some ((r.skip30dCount : ℚ) / (r.run30dCount : ℚ))
        ∧ efficiencyScore r = some ((r.completion30dCount : ℚ) / (r.run30dCount : ℚ))
        ∧ (∀ q, errorRate r = some q →
            0 ≤ q ∧ (r.error30dCount ≤ r.run30dCount → q ≤ 1))
        ∧ (∀ q, skipRate r = some q →
            0 ≤ q ∧ (r.skip30dCount ≤ r.run30dCount → q ≤ 1))
        ∧ (∀ q, efficiencyScore r = some q →
            0 ≤ q ∧ (r.completion30dCount ≤ r.run30dCount → q ≤ 1))) := by
  constructor
  · intro h
    refine ⟨?_, ?_, ?_⟩ <;> simp [errorRate, skipRate, efficiencyScore, h]
  · intro h
    have hpos : (0 : ℚ) < (r.run30dCount : ℚ) := by
      exact_mod_cast Nat.pos_of_ne_zero h
    have hdiv : ∀ e : Nat, mkRat e r.run30dCount = (e : ℚ) / (r.run30dCount : ℚ) := by
      intro e
      rw [Rat.mkRat_eq_div]
      norm_num
    have hbound : ∀ e : Nat, 0 ≤ (e : ℚ) / (r.run30dCount : ℚ)
        ∧ (e ≤ r.run30dCount → (e : ℚ) / (r.run30dCount : ℚ) ≤ 1) := by
      intro e
      constructor
      · positivity
      · intro hle
        rw [div_le_one hpos]
        exact_mod_cast hle
    refine ⟨?_, ?_, ?_, ?_, ?_, ?_⟩
    · simp [errorRate, h, hdiv]
    · simp [skipRate, h, hdiv]
    · simp [efficiencyScore, h, hdiv]
    · intro q hq
      simp [errorRate, h, hdiv] at hq
      rw [← hq]
      exact hbound _
    · intro q hq
      simp [skipRate, h, hdiv] at hq
      rw [← hq]
      exact hbound _
    · intro q hq
      simp [efficiencyScore, h, hdiv] at hq
      rw [← hq]
      exact hbound _

theorem rate_fields_bounds_witness :
    errorRate (⟨some "j", none, none, none, none, 4, 1, 2, 3, none⟩ : Record)
        = some ((1 : ℚ) / 4)
      ∧ skipRate (⟨some "j", none, none, none, none, 0, 0, 0, 0, none⟩ : Record) = none := by
  constructor
  · exact ((rate_fields_bounds _).2 (by decide)).1
  · exact ((rate_fields_bounds _).1 (by decide)).2.1

/-- C2 counterexample: nothing in the record model (or the code) keeps the
error count below the run count; with 5 errors over 2 runs the derived
`errorRate` is `5/2 > 1`, outside the claimed unit interval. -/
def overErrorRecord : Record :=
  ⟨some "j", none, some 0, some 0, some "x", 2, 5, 0, 2, none⟩

theorem c2_counterexample :
    errorRate overErrorRecord = some (mkRat 5 2) ∧ ¬ mkRat 5 2 ≤ 1 := by
  refine ⟨by decide, by decide⟩

/-! ## Aggregation theorems -/

/-- Counting a disjunction of pointwise-exclusive predicates adds the
counts. -/
theorem countP_or_of_disjoint {α : Type} (p q : α → Bool) (l : List α)
    (h : ∀ a ∈ l, ¬(p a = true ∧ q a = true)) :
    l.countP (fun a => p a || q a) = l.countP p + l.countP q := by
  induction l with
  | nil => simp
  | cons a l ih =>
    have ha := h a (List.mem_cons_self a l)
    have hl : ∀ b ∈ l, ¬(p b = true ∧ q b = true) := by
      intro b hb
      exact h b (List.mem_cons_of_mem a hb)
    rw [List.countP_cons, List.countP_cons, List.countP_cons, ih hl]
    cases hp : p a <;> cases hq : q a <;> simp_all <;> omega

/-- Summing per-key counts over a duplicate-free key list counts the
records whose key lies in the list. -/
theorem sum_countP_keys (p : Record → Bool) (K : List String) (hK : K.Nodup)
    (rs : List Record) :
    ((K.map (fun b => rs.countP
        (fun r => r.businessUnitName == some b && p r))).sum)
      = rs.countP
          (fun r => (match r.businessUnitName with
            | some b => K.contains b
            | none => false) && p r) := by
  induction K with
  | nil =>
    simp only [List.map_nil, List.sum_nil]
    rw [List.countP_eq_zero.mpr]
    intro r hr
    rcases hb : r.businessUnitName with _ | b <;> simp [hb]
  | cons b K ih =>
    have hbK : b ∉ K := (List.nodup_cons.mp hK).1
    have hKnd : K.Nodup := (List.nodup_cons.mp hK).2
    rw [List.map_cons, List.sum_cons, ih hKnd]
    rw [← countP_or_of_disjoint]
    · apply List.countP_congr
      intro r _
      rcases hb : r.businessUnitName with _ | b'
      · simp [hb]
      · simp only [hb, List.contains_cons]
        cases hpp : p r <;> cases hc : b' == b <;> cases hk : K.contains b' <;>
          simp [hpp, hc, hk]
    · intro r _
      rintro ⟨h1, h2⟩
      simp only [Bool.and_eq_true, beq_iff_eq] at h1 h2
      rcases hb : r.businessUnitName with _ | b'
      · rw [hb] at h1
        simp at h1
      · rw [hb] at h1 h2
        have : b' = b := by
          simpa using h1.1
        subst this
        have : b' ∈ K := by
          simpa [List.elem_iff] using h2.1
        exact hbK this

/-- C3 (amended): pandas' `groupby` drops records with an absent business
unit and the `count` aggregation ignores absent automation names, so the
per-group `TotalAutomations` sums to the number of records having BOTH a
present business unit and a present automation name — not to the full
record count. -/
theorem totalAutomationsSum_eq (rs : List Record) :
    totalAutomationsSum rs
      = rs.countP (fun r => r.businessUnitName.isSome && r.automationName.isSome) := by
  unfold totalAutomationsSum buKeys totalAutomationsOf
  rw [sum_countP_keys _ _ (List.nodup_dedup _)]
  apply List.countP_congr
  intro r hr
  rcases hb : r.businessUnitName with _ | b
  · simp
  · simp only [Option.isSome_some, Bool.true_and]
    have hmem : b ∈ (rs.filterMap (·.businessUnitName)).dedup := by
      rw [List.mem_dedup, List.mem_filterMap]
      exact ⟨r, hr, hb⟩
    simp [List.elem_iff, hmem]

/-- C3 counterexample: one record with no business unit and one record (in
business unit `"X"`) with no automation name.  The emitted groups' totals
sum to 0, not to the input record count 2. -/
def noBuRecord : Record := ⟨some "A", none, none, none, none, 1, 0, 0, 1, none⟩

def noNameRecord : Record := ⟨none, some "X", none, none, none, 1, 0, 0, 1, none⟩

theorem c3_counterexample :
    totalAutomationsSum [noBuRecord, noNameRecord] = 0
      ∧ ([noBuRecord, noNameRecord] : List Record).length = 2 := by
  refine ⟨by decide, by decide⟩

/-! ## difflib.SequenceMatcher

`string_similarity(a, b) = SequenceMatcher(None, a, b).ratio()`.  With
`isjunk=None` the junk set `bjunk` is empty; autojunk only removes
"popular" characters of `b` from the matching index `b2j` when `b` has at
least 200 characters.  `ratio` is `2*M / (len(a)+len(b))` where `M` is the
total size of the matching blocks found by the recursive
`find_longest_match` decomposition, and `1.0` for two empty strings.  The
value is modelled as the exact rational; the double rounding of the source
cannot move a comparison against `0.85` for any string of realistic length
(the float literal `0.85` sits `1/45035996273704960` below `17/20`). -/

/-- Autojunk: when `b` has at least 200 characters, the characters occurring
more than `len(b)/100 + 1` times are dropped from `b2j`. -/
def popularChar (b : List Char) (c : Char) : Bool :=
  decide (200 ≤ b.length) && decide (b.length / 100 + 1 < b.count c)

/-- Character equality of `a[i]` and `b[j]`, false out of range. -/
def charEqAt (a b : List Char) (i j : Nat) : Bool :=
  match a.get? i, b.get? j with
  | some ca, some cb => ca == cb
  | _, _ => false

/-- Whether `a[i]` and `b[j]` match in the dynamic program: equal characters
and `b[j]` not dropped from `b2j` as popular. -/
def matchOk (pop : Char → Bool) (a b : List Char) (i j : Nat) : Bool :=
  match a.get? i, b.get? j with
  | some ca, some cb => ca == cb && !pop cb
  | _, _ => false

/-- The full guard of one `j2len` entry: a `b2j` hit within the window. -/
def runGuard (pop : Char → Bool) (a b : List Char) (alo blo bhi i j : Nat) : Bool :=
  matchOk pop a b i j && decide (alo ≤ i) && decide (blo ≤ j) && decide (j < bhi)

/-- The inner dynamic program of `find_longest_match`: `j2len[j]` at row
`i`, i.e. the length of the matching run of non-popular characters ending at
`(i, j)` and confined to indices `≥ alo` / `∈ [blo, bhi)`. -/
def commonRun (pop : Char → Bool) (a b : List Char) (alo blo bhi : Nat) :
    Nat → Nat → Nat
  | 0, j =>
    if runGuard pop a b alo blo bhi 0 j then 1 else 0
  | (i+1), j =>
    if runGuard pop a b alo blo bhi (i+1) j then
      if i + 1 = alo || j = blo then 1
      else commonRun pop a b alo blo bhi i (j - 1) + 1
    else 0

/-- One inner-loop update of `find_longest_match`: replace the best block
when the run ending at `(i, j)` is strictly longer. -/
def flmStep (pop : Char → Bool) (a b : List Char) (alo blo bhi i : Nat)
    (best : Nat × Nat × Nat) (j : Nat) : Nat × Nat × Nat :=
  let k := commonRun pop a b alo blo bhi i j
  if best.2.2 < k then (i + 1 - k, j + 1 - k, k) else best

/-- One row `i` of the scan: columns `j ∈ [blo, bhi)` in ascending order. -/
def flmRow (pop : Char → Bool) (a b : List Char) (alo blo bhi : Nat)
    (best : Nat × Nat × Nat) (i : Nat) : Nat × Nat × Nat :=
  (List.range' blo (bhi - blo)).foldl (flmStep pop a b alo blo bhi i) best

/-- The double scan of `find_longest_match`: rows `i ∈ [alo, ahi)`, columns
`j ∈ [blo, bhi)` in lexicographic order, keeping the first block to reach
each new best size (the comparison is strict). -/
def flmCore (pop : Char → Bool) (a b : List Char) (alo ahi blo bhi : Nat) :
    Nat × Nat × Nat :=
  (List.range' alo (ahi - alo)).foldl (flmRow pop a b alo blo bhi) (alo, blo, 0)

/-- The left extension loop of `find_longest_match`: since `bjunk` is empty,
the "non-junk" loop extends over any equal characters and the junk loop
never fires. -/
def extendLeft (a b : List Char) (alo blo : Nat) :
    Nat → Nat → Nat → Nat × Nat × Nat
  | 0, bj, size => (0, bj, size)
  | (bi+1), bj, size =>
    if decide (alo ≤ bi) && decide (blo < bj) && charEqAt a b bi (bj - 1) then
      extendLeft a b alo blo bi (bj - 1) (size + 1)
    else (bi + 1, bj, size)

/-- The right extension loop; the fuel argument strictly dominates the
number of iterations the Python `while` can make, so the two agree. -/
def extendRight (a b : List Char) (ahi bhi bi bj : Nat) : Nat → Nat → Nat
  | 0, size => size
  | (fuel+1), size =>
    if decide (bi + size < ahi) && decide (bj + size < bhi)
        && charEqAt a b (bi + size) (bj + size) then
      extendRight a b ahi bhi bi bj fuel (size + 1)
    else size

/-- `find_longest_match(alo, ahi, blo, bhi)` for `isjunk=None`. -/
def findLongestMatch (pop : Char → Bool) (a b : List Char)
    (alo ahi blo bhi : Nat) : Nat × Nat × Nat :=
  let c := flmCore pop a b alo ahi blo bhi
  let l := extendLeft a b alo blo c.1 c.2.1 c.2.2
  (l.1, l.2.1, extendRight a b ahi bhi l.1 l.2.1 ahi l.2.2)

/-- Total size of the matching blocks of `get_matching_blocks`, by the
recursive decomposition around each longest match.  The fuel strictly
dominates the recursion depth (each sub-range is strictly smaller), so the
guard never truncates a real run. -/
def matchTotal (pop : Char → Bool) (a b : List Char) :
    Nat → Nat → Nat → Nat → Nat → Nat
  | 0, _, _, _, _ => 0
  | (fuel+1), alo, ahi, blo, bhi =>
    let m := findLongestMatch pop a b alo ahi blo bhi
    if m.2.2 = 0 then 0
    else
      matchTotal pop a b fuel alo m.1 blo m.2.1 + m.2.2
        + matchTotal pop a b fuel (m.1 + m.2.2) ahi (m.2.1 + m.2.2) bhi

/-- `string_similarity(a, b) = SequenceMatcher(None, a, b).ratio()` as an
exact rational. -/
def stringSimilarity (sa sb : String) : ℚ :=
  let a := sa.data
  let b := sb.data
  if a.length + b.length = 0 then 1
  else
    mkRat (2 * matchTotal (popularChar b) a b (a.length + b.length + 1)
      0 a.length 0 b.length) (a.length + b.length)

/-! ## Name-similarity clustering -/

/-- The similar-groups loop.  For each pending name not yet `seen`, the
candidate scan runs over the FULL name list (`for other in names`), not
just the unprocessed ones; a non-empty candidate set is emitted as
`{name} ∪ candidates` unless it is already contained in `seen` (it never
is, since `name ∉ seen`), and all its members are added to `seen`. -/
def similarGroupsAux (full : List String) :
    List String → List String → List (List String) → List (List String)
  | [], _, groups => groups
  | n :: rest, seen, groups =>
    if seen.contains n then similarGroupsAux full rest seen groups
    else
      let cands := full.filter (fun other =>
        decide (mkRat 17 20 ≤ stringSimilarity n other) && !(other == n))
      if cands.isEmpty then similarGroupsAux full rest seen groups
      else
        let gset := n :: cands
        if gset.all (fun x => seen.contains x) then
          similarGroupsAux full rest seen groups
        else similarGroupsAux full rest (seen ++ gset) (groups ++ [gset])

/-- `similar_groups` over the distinct automation names in first-seen
order. -/
def similarGroups (names : List String) : List (List String) :=
  similarGroupsAux names names [] []

/-- C8 counterexample: the similarity score is NOT symmetric.
`SequenceMatcher` picks the lexicographically first longest block, and the
leftover ranges differ under transposition: scoring `"ab"` against
`"bacb"` matches both letters, the transpose matches only one. -/
theorem c8_counterexample :
    stringSimilarity "ab" "bacb" = mkRat 2 3
      ∧ stringSimilarity "bacb" "ab" = mkRat 1 3
      ∧ stringSimilarity "ab" "bacb" ≠ stringSimilarity "bacb" "ab" := by
  refine ⟨by decide, by decide, by decide⟩

set_option maxRecDepth 40000 in
/-- C7 counterexample: emitted groups are not pairwise disjoint.  The
candidate scan runs over all names, so `"sync12"` (already grouped with the
seed `"sync1"`) is picked up again by the later seed `"sync123"` — even
though `"sync1"` and `"sync123"` themselves score below the threshold. -/
theorem c7_counterexample :
    similarGroups ["sync1", "sync12", "sync123"]
        = [["sync1", "sync12"], ["sync123", "sync12"]]
      ∧ "sync12" ∈ ["sync1", "sync12"]
      ∧ "sync12" ∈ ["sync123", "sync12"]
      ∧ stringSimilarity "sync1" "sync123" < mkRat 17 20 := by
  refine ⟨by decide, by decide, by decide, by decide⟩

/-- Loop invariant: every member of an emitted group is `seen`, and every
later group has a member (its seed) missing from every earlier group; both
are preserved by the loop, so the final group list is pairwise
non-nested. -/
theorem similarGroupsAux_pairwise (full : List String) (pending : List String) :
    ∀ (seen : List String) (groups : List (List String)),
      (∀ g ∈ groups, ∀ x ∈ g, x ∈ seen) →
      List.Pairwise (fun g h => ∃ x, x ∈ h ∧ x ∉ g) groups →
      List.Pairwise (fun g h => ∃ x, x ∈ h ∧ x ∉ g)
        (similarGroupsAux full pending seen groups) := by
  induction pending with
  | nil =>
    intro seen groups _ h2
    simpa [similarGroupsAux] using h2
  | cons n rest ih =>
    intro seen groups h1 h2
    rw [similarGroupsAux]
    by_cases hseen : seen.contains n = true
    · rw [if_pos hseen]
      exact ih seen groups h1 h2
    · rw [if_neg hseen]
      simp only []
      by_cases hemp : (full.filter (fun other =>
          decide (mkRat 17 20 ≤ stringSimilarity n other) && !(other == n))).isEmpty = true
      · rw [if_pos hemp]
        exact ih seen groups h1 h2
      · rw [if_neg hemp]
        by_cases hall : ((n :: full.filter (fun other =>
            decide (mkRat 17 20 ≤ stringSimilarity n other) && !(other == n))).all
              (fun x => seen.contains x)) = true
        · rw [if_pos hall]
          exact ih seen groups h1 h2
        · rw [if_neg hall]
          apply ih
          · intro g hg x hx
            rcases List.mem_append.mp hg with hg | hg
            · exact List.mem_append.mpr (Or.inl (h1 g hg x hx))
            · rw [List.mem_singleton] at hg
              subst hg
              exact List.mem_append.mpr (Or.inr hx)
          · rw [List.pairwise_append]
            refine ⟨h2, List.pairwise_singleton _ _, ?_⟩
            intro g hg gs hgs
            rw [List.mem_singleton] at hgs
            subst hgs
            refine ⟨n, List.mem_cons_self _ _, ?_⟩
            intro hng
            have : n ∈ seen := h1 g hg n hng
            exact hseen (List.elem_iff.mpr this)

/-- C7 (amended): the emitted groups need not be pairwise disjoint — the
candidate scan draws from ALL names, so an already-grouped name can recur in
a later group.  What does hold: each group's seed was unseen when the group
was formed, so every group has a member absent from every earlier group (in
particular the groups are pairwise distinct). -/
theorem similarGroups_seed_fresh (names : List String) :
    List.Pairwise (fun g h => ∃ x, x ∈ h ∧ x ∉ g) (similarGroups names) := by
  apply similarGroupsAux_pairwise
  · intro g hg
    simp at hg
  · exact List.Pairwise.nil

/-- Loop invariant: every emitted group is a seed consed onto a non-empty
candidate list whose members differ from the seed, so it holds two distinct
names. -/
theorem similarGroupsAux_two_distinct (full : List String) (pending : List String) :
    ∀ (seen : List String) (groups : List (List String)),
      (∀ g ∈ groups, ∃ x ∈ g, ∃ y ∈ g, x ≠ y) →
      ∀ g ∈ similarGroupsAux full pending seen groups, ∃ x ∈ g, ∃ y ∈ g, x ≠ y := by
  induction pending with
  | nil =>
    intro seen groups hg
    simpa [similarGroupsAux] using hg
  | cons n rest ih =>
    intro seen groups hg
    rw [similarGroupsAux]
    by_cases hseen : seen.contains n = true
    · rw [if_pos hseen]
      exact ih seen groups hg
    · rw [if_neg hseen]
      simp only []
      by_cases hemp : (full.filter (fun other =>
          decide (mkRat 17 20 ≤ stringSimilarity n other) && !(other == n))).isEmpty = true
      · rw [if_pos hemp]
        exact ih seen groups hg
      · rw [if_neg hemp]
        by_cases hall : ((n :: full.filter (fun other =>
            decide (mkRat 17 20 ≤ stringSimilarity n other) && !(other == n))).all
              (fun x => seen.contains x)) = true
        · rw [if_pos hall]
          exact ih seen groups hg
        · rw [if_neg hall]
          apply ih
          intro g hg'
          rcases List.mem_append.mp hg' with hg' | hg'
          · exact hg g hg'
          · rw [List.mem_singleton] at hg'
            subst hg'
            have hne : ¬ (full.filter (fun other =>
                decide (mkRat 17 20 ≤ stringSimilarity n other) && !(other == n))) = [] := by
              intro h0
              rw [h0] at hemp
              exact hemp rfl
            rcases List.exists_mem_of_ne_nil _ hne with ⟨c, hc⟩
            have hcprop := List.of_mem_filter hc
            have hcne : c ≠ n := by
              intro h0
              rw [Bool.and_eq_true] at hcprop
              rw [h0] at hcprop
              simp at hcprop
            exact ⟨n, List.mem_cons_self _ _, c, List.mem_cons_of_mem _ hc, fun h => hcne h.symm⟩

/-- Loop invariant: a name scoring below the threshold against every other
name (in both argument orders) is never a successful seed and never a
candidate, so it enters no group. -/
theorem similarGroupsAux_below_threshold (full : List String) (n₀ : String)
    (hfull : ∀ m ∈ full, m ≠ n₀ →
      stringSimilarity n₀ m < mkRat 17 20 ∧ stringSimilarity m n₀ < mkRat 17 20)
    (pending : List String) :
    ∀ (seen : List String) (groups : List (List String)),
      (∀ m ∈ pending, m ∈ full) →
      (∀ g ∈ groups, n₀ ∉ g) →
      ∀ g ∈ similarGroupsAux full pending seen groups, n₀ ∉ g := by
  induction pending with
  | nil =>
    intro seen groups _ hg
    simpa [similarGroupsAux] using hg
  | cons n rest ih =>
    intro seen groups hpf hg
    have hrest : ∀ m ∈ rest, m ∈ full := by
      intro m hm
      exact hpf m (List.mem_cons_of_mem _ hm)
    have hnf : n ∈ full := hpf n (List.mem_cons_self _ _)
    rw [similarGroupsAux]
    by_cases hseen : seen.contains n = true
    · rw [if_pos hseen]
      exact ih seen groups hrest hg
    · rw [if_neg hseen]
      simp only []
      by_cases hemp : (full.filter (fun other =>
          decide (mkRat 17 20 ≤ stringSimilarity n other) && !(other == n))).isEmpty = true
      · rw [if_pos hemp]
        exact ih seen groups hrest hg
      · rw [if_neg hemp]
        by_cases hall : ((n :: full.filter (fun other =>
            decide (mkRat 17 20 ≤ stringSimilarity n other) && !(other == n))).all
              (fun x => seen.contains x)) = true
        · rw [if_pos hall]
          exact ih seen groups hrest hg
        · rw [if_neg hall]
          apply ih _ _ hrest
          intro g hg'
          rcases List.mem_append.mp hg' with hg' | hg'
          · exact hg g hg'
          · rw [List.mem_singleton] at hg'
            subst hg'
            have hne : ¬ (full.filter (fun other =>
                decide (mkRat 17 20 ≤ stringSimilarity n other) && !(other == n))) = [] := by
              intro h0
              rw [h0] at hemp
              exact hemp rfl
            intro hmem
            have hn0n : ¬ n = n₀ := by
              intro h0
              subst h0
              apply hne
              rw [List.filter_eq_nil_iff]
              intro m hm
              rw [Bool.and_eq_true]
              rintro ⟨hsim, hmn⟩
              have hmne : m ≠ n := by
                intro h0
                rw [h0] at hmn
                simp at hmn
              have := (hfull m hm hmne).1
              rw [decide_eq_true_iff] at hsim
              exact absurd hsim (not_le.mpr this)
            rcases List.mem_cons.mp hmem with h0 | h0
            · exact hn0n h0.symm
            · have h0prop := List.of_mem_filter h0
              rw [Bool.and_eq_true] at h0prop
              have := (hfull n hnf (fun h => hn0n h)).2
              rw [decide_eq_true_iff] at h0prop
              exact absurd h0prop.1 (not_le.mpr this)

/-- C9: the clusterer never emits singleton groups (every group holds two
distinct names); a name scoring below the 0.85 threshold against every
other name, in both argument orders, appears in no group; and an empty name
set yields an empty group list. -/
theorem similarGroups_no_singletons (names : List String) :
    (∀ g ∈ similarGroups names, ∃ x ∈ g, ∃ y ∈ g, x ≠ y)
    ∧ (∀ n₀, (∀ m ∈ names, m ≠ n₀ →
        stringSimilarity n₀ m < mkRat 17 20 ∧ stringSimilarity m n₀ < mkRat 17 20) →
        ∀ g ∈ similarGroups names, n₀ ∉ g)
    ∧ similarGroups [] = [] := by
  refine ⟨?_, ?_, rfl⟩
  · intro g hg
    exact similarGroupsAux_two_distinct names names [] []
      (by intro g hg'; simp at hg') g hg
  · intro n₀ hn₀ g hg
    exact similarGroupsAux_below_threshold names n₀ hn₀ names [] []
      (fun m hm => hm) (by intro g hg'; simp at hg') g hg

set_option maxRecDepth 40000 in
theorem similarGroups_no_singletons_witness :
    "payroll" ∉ (["sync1", "sync12"] : List String) :=
  (similarGroups_no_singletons ["sync1", "sync12", "payroll"]).2.1 "payroll"
    (by decide) ["sync1", "sync12"] (by decide)

/-! ## Reflexivity of the similarity score

On two copies of the same string the scan's best block is always diagonal
(a run ending at `(i, j)` forces equal runs ending at `(i, i)` and
`(j, j)`), and the extension loops then stretch a diagonal block across the
whole window, so every recursion level matches everything. -/

theorem charEqAt_self (a : List Char) (i : Nat) (h : i < a.length) :
    charEqAt a a i i = true := by
  unfold charEqAt
  rw [List.get?_eq_get h]
  simp

theorem matchOk_diag (pop : Char → Bool) (a : List Char) (i j : Nat)
    (h : matchOk pop a a i j = true) :
    matchOk pop a a j j = true ∧ matchOk pop a a i i = true := by
  unfold matchOk at h ⊢
  cases hi : a.get? i with
  | none => rw [hi] at h; simp at h
  | some ca =>
    cases hj : a.get? j with
    | none => rw [hi, hj] at h; simp at h
    | some cb =>
      rw [hi, hj] at h
      rw [Bool.and_eq_true, beq_iff_eq] at h
      obtain ⟨hab, hpop⟩ := h
      subst hab
      simp [hpop]

theorem runGuard_diag (pop : Char → Bool) (a : List Char) (lo hi i j : Nat)
    (h : runGuard pop a a lo lo hi i j = true) :
    runGuard pop a a lo lo hi j j = true
      ∧ (i < hi → runGuard pop a a lo lo hi i i = true) := by
  unfold runGuard at h ⊢
  simp only [Bool.and_eq_true, decide_eq_true_iff] at h ⊢
  obtain ⟨⟨⟨hok, hai⟩, haj⟩, hjhi⟩ := h
  obtain ⟨hjj, hii⟩ := matchOk_diag pop a i j hok
  exact ⟨⟨⟨⟨hjj, haj⟩, haj⟩, hjhi⟩, fun hih => ⟨⟨⟨hii, hai⟩, hai⟩, hih⟩⟩

theorem commonRun_pos (pop : Char → Bool) (a b : List Char)
    (alo blo bhi : Nat) (i j : Nat)
    (h : runGuard pop a b alo blo bhi i j = true) :
    1 ≤ commonRun pop a b alo blo bhi i j := by
  cases i with
  | zero => simp [commonRun, h]
  | succ i =>
    rw [commonRun, if_pos h]
    split <;> omega

theorem commonRun_le (pop : Char → Bool) (a b : List Char)
    (alo blo bhi : Nat) :
    ∀ i j, commonRun pop a b alo blo bhi i j ≤ i + 1 - alo
      ∧ commonRun pop a b alo blo bhi i j ≤ j + 1 - blo := by
  intro i
  induction i with
  | zero =>
    intro j
    rw [commonRun]
    split
    · rename_i h
      unfold runGuard at h
      simp only [Bool.and_eq_true, decide_eq_true_iff] at h
      omega
    · omega
  | succ i ih =>
    intro j
    rw [commonRun]
    split
    · rename_i h
      unfold runGuard at h
      simp only [Bool.and_eq_true, decide_eq_true_iff] at h
      split
      · omega
      · rename_i hbase
        rw [Bool.or_eq_true, decide_eq_true_iff, decide_eq_true_iff] at hbase
        push_neg at hbase
        have := ih (j - 1)
        omega
    · omega

theorem commonRun_dominance (pop : Char → Bool) (a : List Char) (lo hi : Nat) :
    ∀ i j, commonRun pop a a lo lo hi i j ≤ commonRun pop a a lo lo hi j j
      ∧ (i < hi →
        commonRun pop a a lo lo hi i j ≤ commonRun pop a a lo lo hi i i) := by
  intro i
  induction i with
  | zero =>
    intro j
    by_cases hg : runGuard pop a a lo lo hi 0 j = true
    · obtain ⟨hgj, hgi⟩ := runGuard_diag pop a lo hi 0 j hg
      constructor
      · calc commonRun pop a a lo lo hi 0 j ≤ 1 := by
              rw [commonRun, if_pos hg]
          _ ≤ _ := commonRun_pos pop a a lo lo hi j j hgj
      · intro hih
        calc commonRun pop a a lo lo hi 0 j ≤ 1 := by
              rw [commonRun, if_pos hg]
          _ ≤ _ := commonRun_pos pop a a lo lo hi 0 0 (hgi hih)
    · rw [commonRun, if_neg hg]
      exact ⟨Nat.zero_le _, fun _ => Nat.zero_le _⟩
  | succ i ih =>
    intro j
    by_cases hg : runGuard pop a a lo lo hi (i+1) j = true
    · obtain ⟨hgj, hgi⟩ := runGuard_diag pop a lo hi (i+1) j hg
      have hgbits := hg
      unfold runGuard at hgbits
      simp only [Bool.and_eq_true, decide_eq_true_iff] at hgbits
      by_cases hbase : (i + 1 = lo || j = lo) = true
      · have h1 : commonRun pop a a lo lo hi (i+1) j = 1 := by
          rw [commonRun, if_pos hg, if_pos hbase]
        constructor
        · rw [h1]
          exact commonRun_pos pop a a lo lo hi j j hgj
        · intro hih
          rw [h1]
          exact commonRun_pos pop a a lo lo hi (i+1) (i+1) (hgi hih)
      · have hbase' := hbase
        rw [Bool.or_eq_true, decide_eq_true_iff, decide_eq_true_iff] at hbase'
        push_neg at hbase'
        have hjlo : lo < j := by
          rcases Nat.lt_or_ge lo j with h | h
          · exact h
          · exact absurd (Nat.le_antisymm h hgbits.1.2) hbase'.2
        have hrec : commonRun pop a a lo lo hi (i+1) j
            = commonRun pop a a lo lo hi i (j-1) + 1 := by
          rw [commonRun, if_pos hg, if_neg hbase]
        constructor
        · -- k(i+1, j) ≤ k(j, j), via k(j, j) = k(j-1, j-1) + 1
          obtain ⟨j', hj'⟩ : ∃ j', j = j' + 1 := ⟨j - 1, by omega⟩
          subst hj'
          have hcj : ¬ ((decide (j' + 1 = lo) || decide (j' + 1 = lo)) = true) := by
            simp only [Bool.or_eq_true, decide_eq_true_iff]
            omega
          have hjrec : commonRun pop a a lo lo hi (j'+1) (j'+1)
              = commonRun pop a a lo lo hi j' j' + 1 := by
            rw [commonRun, if_pos hgj, if_neg hcj]
            norm_num
          rw [hrec, hjrec]
          have := (ih (j' + 1 - 1)).1
          simpa using Nat.succ_le_succ this
        · intro hih
          have hci : ¬ ((decide (i + 1 = lo) || decide (i + 1 = lo)) = true) := by
            simp only [Bool.or_eq_true, decide_eq_true_iff]
            omega
          have hirec : commonRun pop a a lo lo hi (i+1) (i+1)
              = commonRun pop a a lo lo hi i i + 1 := by
            rw [commonRun, if_pos (hgi hih), if_neg hci]
            norm_num
          rw [hrec, hirec]
          have := (ih (j - 1)).2 (by omega)
          omega
    · rw [commonRun, if_neg hg]
      exact ⟨Nat.zero_le _, fun _ => Nat.zero_le _⟩

theorem foldl_flmStep_no_update (pop : Char → Bool) (a b : List Char)
    (alo blo bhi i : Nat) :
    ∀ (js : List Nat) (best : Nat × Nat × Nat),
      (∀ j ∈ js, commonRun pop a b alo blo bhi i j ≤ best.2.2) →
      js.foldl (flmStep pop a b alo blo bhi i) best = best := by
  intro js
  induction js with
  | nil => intro best _; rfl
  | cons j js ih =>
    intro best h
    have hj : ¬ best.2.2 < commonRun pop a b alo blo bhi i j :=
      not_lt.mpr (h j (List.mem_cons_self _ _))
    rw [List.foldl_cons]
    rw [show flmStep pop a b alo blo bhi i best j = best from if_neg hj]
    exact ih best (fun j' hj' => h j' (List.mem_cons_of_mem _ hj'))

theorem flmRow_square (pop : Char → Bool) (a : List Char) (lo hi : Nat)
    (i d s : Nat) (hlo : lo ≤ i) (hihi : i < hi) (hld : lo ≤ d)
    (hds : d + s ≤ hi)
    (hprev : ∀ i', lo ≤ i' → i' < i → commonRun pop a a lo lo hi i' i' ≤ s) :
    ∃ d' s', flmRow pop a a lo lo hi (d, d, s) i = (d', d', s')
      ∧ lo ≤ d' ∧ d' + s' ≤ hi ∧ s ≤ s'
      ∧ (∀ i', lo ≤ i' → i' < i + 1 → commonRun pop a a lo lo hi i' i' ≤ s') := by
  have hsplit : List.range' lo (hi - lo)
      = List.range' lo (i - lo) ++ i :: List.range' (i+1) (hi - (i+1)) := by
    have h1 : List.range' lo (i - lo) ++ List.range' (lo + 1 * (i - lo)) (hi - i)
        = List.range' lo ((hi - i) + (i - lo)) := List.range'_append lo (i - lo) (hi - i) 1
    have h2 : lo + 1 * (i - lo) = i := by omega
    have h3 : (hi - i) + (i - lo) = hi - lo := by omega
    rw [h2, h3] at h1
    rw [← h1]
    congr 1
    have h4 : hi - i = (hi - (i+1)) + 1 := by omega
    rw [h4, List.range'_succ]
  unfold flmRow
  rw [hsplit, List.foldl_append]
  rw [foldl_flmStep_no_update pop a a lo lo hi i _ (d, d, s) ?seg1]
  case seg1 =>
    intro j hj
    rw [List.mem_range'_1] at hj
    calc commonRun pop a a lo lo hi i j
        ≤ commonRun pop a a lo lo hi j j := (commonRun_dominance pop a lo hi i j).1
      _ ≤ s := hprev j hj.1 (by omega)
  rw [List.foldl_cons]
  by_cases hupd : s < commonRun pop a a lo lo hi i i
  · set k := commonRun pop a a lo lo hi i i with hk
    have hstep : flmStep pop a a lo lo hi i (d, d, s) i = (i + 1 - k, i + 1 - k, k) := by
      unfold flmStep
      rw [if_pos hupd]
    rw [hstep]
    have hkle : k ≤ i + 1 - lo := (commonRun_le pop a a lo lo hi i i).1
    refine ⟨i + 1 - k, k, ?_, by omega, by omega, by omega, ?_⟩
    · apply foldl_flmStep_no_update
      intro j hj
      rw [List.mem_range'_1] at hj
      calc commonRun pop a a lo lo hi i j
          ≤ commonRun pop a a lo lo hi i i := (commonRun_dominance pop a lo hi i j).2 hihi
        _ ≤ k := le_refl _
    · intro i' hi'lo hi'
      rcases Nat.lt_or_ge i' i with h | h
      · exact le_trans (hprev i' hi'lo h) (le_of_lt hupd)
      · have : i' = i := by omega
        subst this
        exact le_refl _
  · have hstep : flmStep pop a a lo lo hi i (d, d, s) i = (d, d, s) := by
      unfold flmStep
      rw [if_neg hupd]
    rw [hstep]
    refine ⟨d, s, ?_, hld, hds, le_refl _, ?_⟩
    · apply foldl_flmStep_no_update
      intro j hj
      rw [List.mem_range'_1] at hj
      calc commonRun pop a a lo lo hi i j
          ≤ commonRun pop a a lo lo hi i i := (commonRun_dominance pop a lo hi i j).2 hihi
        _ ≤ s := not_lt.mp hupd
    · intro i' hi'lo hi'
      rcases Nat.lt_or_ge i' i with h | h
      · exact hprev i' hi'lo h
      · have : i' = i := by omega
        subst this
        exact not_lt.mp hupd

theorem flmCore_rows_square (pop : Char → Bool) (a : List Char) (lo hi : Nat) :
    ∀ (n i d s : Nat), i + n = hi → lo ≤ i → lo ≤ d → d + s ≤ hi →
      (∀ i', lo ≤ i' → i' < i → commonRun pop a a lo lo hi i' i' ≤ s) →
      ∃ d' s', (List.range' i n).foldl (flmRow pop a a lo lo hi) (d, d, s) = (d', d', s')
        ∧ lo ≤ d' ∧ d' + s' ≤ hi := by
  intro n
  induction n with
  | zero =>
    intro i d s _ _ hld hds _
    exact ⟨d, s, rfl, hld, hds⟩
  | succ n ih =>
    intro i d s hin hloi hld hds hprev
    rw [List.range'_succ, List.foldl_cons]
    obtain ⟨d', s', hrow, hld', hds', _, hprev'⟩ :=
      flmRow_square pop a lo hi i d s hloi (by omega) hld hds hprev
    rw [hrow]
    exact ih (i+1) d' s' (by omega) (by omega) hld' hds' hprev'

theorem flmCore_square (pop : Char → Bool) (a : List Char) (lo hi : Nat)
    (h : lo ≤ hi) :
    ∃ d s, flmCore pop a a lo hi lo hi = (d, d, s) ∧ lo ≤ d ∧ d + s ≤ hi := by
  unfold flmCore
  obtain ⟨d, s, hfold, hld, hds⟩ :=
    flmCore_rows_square pop a lo hi (hi - lo) lo lo 0 (by omega) (le_refl _)
      (le_refl _) (by omega) (by intro i' h1 h2; omega)
  exact ⟨d, s, hfold, hld, hds⟩

theorem extendLeft_diag (a : List Char) (lo : Nat) :
    ∀ (bi size : Nat), lo ≤ bi → bi ≤ a.length →
      extendLeft a a lo lo bi bi size = (lo, lo, size + (bi - lo)) := by
  intro bi
  induction bi with
  | zero =>
    intro size hlo _
    have : lo = 0 := by omega
    subst this
    rfl
  | succ bi ih =>
    intro size hlo hlen
    rw [extendLeft]
    by_cases hbi : lo ≤ bi
    · have hch : charEqAt a a bi bi = true := charEqAt_self a bi (by omega)
      rw [if_pos]
      · simp only [Nat.add_sub_cancel]
        rw [ih (size + 1) hbi (by omega)]
        have harith : size + 1 + (bi - lo) = size + (bi + 1 - lo) := by omega
        rw [harith]
      · simp only [Bool.and_eq_true, decide_eq_true_iff]
        exact ⟨⟨hbi, by omega⟩, hch⟩
    · have hlobi : lo = bi + 1 := by omega
      rw [if_neg]
      · subst hlobi
        simp
      · simp only [Bool.and_eq_true, decide_eq_true_iff]
        intro hcon
        exact hbi hcon.1.1

theorem extendRight_diag (a : List Char) (lo hi : Nat) (hlen : hi ≤ a.length) :
    ∀ (fuel size : Nat), size ≤ hi - lo → hi - lo ≤ size + fuel →
      extendRight a a hi hi lo lo fuel size = hi - lo := by
  intro fuel
  induction fuel with
  | zero =>
    intro size h1 h2
    rw [extendRight]
    omega
  | succ fuel ih =>
    intro size h1 h2
    rw [extendRight]
    by_cases hsz : size < hi - lo
    · rw [if_pos]
      · exact ih (size + 1) (by omega) (by omega)
      · have hch : charEqAt a a (lo + size) (lo + size) = true :=
          charEqAt_self a (lo + size) (by omega)
        simp only [Bool.and_eq_true, decide_eq_true_iff]
        exact ⟨⟨by omega, by omega⟩, hch⟩
    · rw [if_neg]
      · omega
      · simp only [Bool.and_eq_true, decide_eq_true_iff]
        intro hcon
        omega

theorem findLongestMatch_square (pop : Char → Bool) (a : List Char)
    (lo hi : Nat) (hlh : lo ≤ hi) (hlen : hi ≤ a.length) :
    findLongestMatch pop a a lo hi lo hi = (lo, lo, hi - lo) := by
  unfold findLongestMatch
  obtain ⟨d, s, hcore, hld, hds⟩ := flmCore_square pop a lo hi hlh
  rw [hcore]
  simp only []
  rw [extendLeft_diag a lo d s hld (by omega)]
  simp only []
  rw [extendRight_diag a lo hi hlen hi (s + (d - lo)) (by omega) (by omega)]

theorem matchTotal_empty (pop : Char → Bool) (a : List Char) (lo : Nat)
    (hlen : lo ≤ a.length) :
    ∀ fuel, matchTotal pop a a fuel lo lo lo lo = 0 := by
  intro fuel
  cases fuel with
  | zero => rfl
  | succ fuel =>
    rw [matchTotal]
    rw [findLongestMatch_square pop a lo lo (le_refl _) hlen]
    simp

theorem matchTotal_square (pop : Char → Bool) (a : List Char) (lo hi : Nat)
    (hlh : lo ≤ hi) (hlen : hi ≤ a.length) :
    ∀ fuel, 1 ≤ fuel → matchTotal pop a a fuel lo hi lo hi = hi - lo := by
  intro fuel hfuel
  obtain ⟨f, rfl⟩ : ∃ f, fuel = f + 1 := ⟨fuel - 1, by omega⟩
  rw [matchTotal]
  rw [findLongestMatch_square pop a lo hi hlh hlen]
  by_cases hz : hi - lo = 0
  · simp [hz]
  · simp only [hz, if_neg]
    have hlo' : lo + (hi - lo) = hi := by omega
    rw [hlo']
    rw [matchTotal_empty pop a lo (by omega) f, matchTotal_empty pop a hi hlen f]
    simp

/-- C8 (amended): the similarity score of any name with itself is exactly
`1.0`; the score is NOT symmetric in general (see the counterexample), so
only the reflexive half of the claim survives. -/
theorem stringSimilarity_self (s : String) : stringSimilarity s s = 1 := by
  unfold stringSimilarity
  simp only []
  by_cases hz : s.data.length + s.data.length = 0
  · rw [if_pos hz]
  · rw [if_neg hz]
    rw [matchTotal_square (popularChar s.data) s.data 0 s.data.length
      (Nat.zero_le _) (le_refl _) _ (by omega)]
    have hn : s.data.length ≠ 0 := by omega
    rw [Rat.mkRat_eq_div, Nat.sub_zero]
    push_cast
    have hx0 : (0 : ℚ) < (s.data.length : ℚ) := by
      exact_mod_cast Nat.pos_of_ne_zero hn
    have hsum : (s.data.length : ℚ) + (s.data.length : ℚ) = 2 * (s.data.length : ℚ) := by
      ring
    rw [hsum, div_self (by positivity)]

theorem inefficient_label_iff_witness :
    suggestAction 300000
        (⟨some "w", none, some 0, some (300000 - 2 * 1440), some "daily",
          12, 1, 0, 2, none⟩ : Record) = "Inefficient" :=
  (inefficient_label_iff 300000 _).mpr
    ⟨by decide, by decide, by decide, by decide, by decide, by decide, by decide⟩

set_option maxRecDepth 40000 in
theorem similarGroups_seed_fresh_witness :
    List.Pairwise (fun g h => ∃ x, x ∈ h ∧ x ∉ g)
      (similarGroups ["sync1", "sync12", "sync123"]) :=
  similarGroups_seed_fresh ["sync1", "sync12", "sync123"]
